import Mathlib

set_option maxRecDepth 8000

/-!
Shallow embedding of the `lmdb-mcp` server (`src/lmdb_mcp/server.py`).

The store is modelled as a list of (key, raw value) pairs in LMDB iteration
order (byte order of the UTF-8 encoded keys).  A raw value is `some d` when
the stored bytes decode (via `json.loads`) to the JSON value `d`, and `none`
when the stored bytes are not valid JSON.  Python exceptions raised by an
operation are modelled by `Except.error` carrying the exception class;
because every exception escapes the `with env.begin(...)` block, the write
transaction is aborted and the store is unchanged on every error path, so
mutating operations return the (unchanged) store next to the error.

Python value equality (`==`) on decoded JSON data is modelled by `pyEq`.
Note that in Python `bool` is a subtype of `int`, so `True == 1` and
`False == 0` hold, while `1 == "1"` does not; `pyEq` reproduces this.
-/

mutual

/-- A Python value as produced by `json.loads` / passed as a tool argument.
`int` and `float` are kept apart as in Python; `float` is modelled as a
rational (JSON cannot denote NaN or infinities).  `nonser t` stands for a
Python object that `json.dumps` rejects (e.g. `object()`), tagged by an
identity `t`. -/
inductive Json where
  | null
  | bool (b : Bool)
  | int (n : Int)
  | float (q : ℚ)
  | str (s : String)
  | nonser (t : Nat)
  | arr (xs : JsonList)
  | obj (fs : JsonFields)

/-- A Python list of JSON values. -/
inductive JsonList where
  | nil
  | cons (x : Json) (xs : JsonList)

/-- A Python dict decoded from JSON: an ordered association of string keys to
values.  Dicts produced by `json.loads` have pairwise distinct keys. -/
inductive JsonFields where
  | nil
  | cons (k : String) (v : Json) (fs : JsonFields)

end

/-- Dict member lookup: the value stored under `key`, if present
(distinguishes a missing field from a field holding `null`). -/
def findField : JsonFields → String → Option Json
  | .nil, _ => none
  | .cons k v fs, key => if k = key then some v else findField fs key

/-- Number of entries of a dict. -/
def JsonFields.length : JsonFields → Nat
  | .nil => 0
  | .cons _ _ fs => 1 + fs.length

mutual

/-- Python `==` on decoded JSON data.  Numbers compare by value across
`bool`/`int`/`float` (in Python `True == 1`, `1 == 1.0`); values of
genuinely different types compare unequal; lists compare pointwise; dicts
compare by size and key-wise value equality (insertion order irrelevant);
two non-serializable objects compare by identity. -/
def pyEq (a b : Json) : Bool :=
  match a, b with
  | .null, .null => true
  | .bool x, .bool y => x == y
  | .bool x, .int y => (if x then (1 : Int) else 0) == y
  | .int x, .bool y => x == (if y then (1 : Int) else 0)
  | .int x, .int y => x == y
  | .float x, .float y => x == y
  | .float x, .int y => x == ((y : Int) : ℚ)
  | .int x, .float y => ((x : Int) : ℚ) == y
  | .bool x, .float y => (if x then (1 : ℚ) else 0) == y
  | .float x, .bool y => x == (if y then (1 : ℚ) else 0)
  | .str x, .str y => x == y
  | .nonser x, .nonser y => x == y
  | .arr xs, .arr ys => pyEqList xs ys
  | .obj fs, .obj gs => fs.length == gs.length && pyEqFields fs gs
  | _, _ => false
termination_by structural a

/-- Pointwise Python `==` on lists. -/
def pyEqList (xs ys : JsonList) : Bool :=
  match xs, ys with
  | .nil, .nil => true
  | .cons x xs, .cons y ys => pyEq x y && pyEqList xs ys
  | _, _ => false
termination_by structural xs

/-- Every entry of `fs` is present in `gs` with a `pyEq`-equal value. -/
def pyEqFields (fs gs : JsonFields) : Bool :=
  match fs with
  | .nil => true
  | .cons k v fs' =>
      (match findField gs k with
       | some v2 => pyEq v v2
       | none => false) && pyEqFields fs' gs
termination_by structural fs

end

mutual

/-- Whether `json.dumps` accepts the value (no `nonser` anywhere inside). -/
def serializable : Json → Bool
  | .nonser _ => false
  | .arr xs => serializableList xs
  | .obj fs => serializableFields fs
  | _ => true
termination_by structural j => j

/-- `serializable` on every element of a list. -/
def serializableList : JsonList → Bool
  | .nil => true
  | .cons x xs => serializable x && serializableList xs
termination_by structural xs => xs

/-- `serializable` on every value of a dict. -/
def serializableFields : JsonFields → Bool
  | .nil => true
  | .cons _ v fs => serializable v && serializableFields fs
termination_by structural fs => fs

end

/-- Build a dict from a Lean list of fields (in insertion order). -/
def JsonFields.ofList : List (String × Json) → JsonFields
  | [] => .nil
  | (k, v) :: fs => .cons k v (JsonFields.ofList fs)

/-- Convenience constructor for object literals. -/
def jObj (l : List (String × Json)) : Json := .obj (JsonFields.ofList l)

/-- Python `data.get(field)`: the stored value, or `None` when the field is
absent (`dict.get` collapses absence to `None`). -/
def jgetD (fs : JsonFields) (key : String) : Json := (findField fs key).getD .null

/-- Python `data[column] = value`: replace the value of an existing key in
place, or append a new key at the end (dict insertion-order semantics). -/
def setField : JsonFields → String → Json → JsonFields
  | .nil, k, v => .cons k v .nil
  | .cons k2 v2 fs, k, v =>
      if k2 = k then .cons k2 v fs else .cons k2 v2 (setField fs k v)

/-- Python `data.update(updates)`: apply `data[k] = v` for each pair of
`updates` in order. -/
def updateFields (fs : JsonFields) : List (String × Json) → JsonFields
  | [] => fs
  | (k, v) :: rest => updateFields (setField fs k v) rest

/-- Raw stored bytes: `some d` decodes to `d`, `none` is malformed JSON. -/
abbrev Raw := Option Json

/-- An LMDB store in iteration order: keys with their raw values.  LMDB
iterates keys in byte order of their UTF-8 encodings; theorems that depend
on the order carry a `sortedStore` hypothesis. -/
abbrev Store := List (String × Raw)

/-- Byte-wise strict order on byte strings (LMDB's default key order). -/
def bytesLt : List Nat → List Nat → Bool
  | _, [] => false
  | [], _ :: _ => true
  | a :: as, b :: bs => if a < b then true else if b < a then false else bytesLt as bs

/-- The UTF-8 bytes of a string, compared position by position.  Byte-wise
order of UTF-8 encodings coincides with code-point lexicographic order, so
comparing code points is faithful to LMDB's comparison of the encoded keys. -/
def strBytes (s : String) : List Nat := s.data.map Char.toNat

/-- Key order: `a` strictly before `b` in LMDB iteration order. -/
def keyLt (a b : String) : Bool := bytesLt (strBytes a) (strBytes b)

/-- The store's entries are strictly increasing in key order (always true of
a real LMDB store; the list model states it explicitly). -/
abbrev sortedStore (st : Store) : Prop :=
  List.Pairwise (fun a b : String × Raw => keyLt a.1 b.1 = true) st

/-- `txn.get(key)`: point lookup. -/
def lookupStore : Store → String → Option Raw
  | [], _ => none
  | (k, r) :: rest, key => if k = key then some r else lookupStore rest key

/-- `txn.put(key, bytes)`: insert or replace, keeping the key order of a
sorted store. -/
def storePut : Store → String → Raw → Store
  | [], key, r => [(key, r)]
  | (k, v) :: rest, key, r =>
      if k = key then (key, r) :: rest
      else if keyLt key k then (key, r) :: (k, v) :: rest
      else (k, v) :: storePut rest key r

/-- Python exceptions the server can raise. -/
inductive PyError where
  /-- `json.JSONDecodeError` from `json.loads`. -/
  | decodeError
  /-- `TypeError`, e.g. `json.dumps` on a non-serializable value. -/
  | typeError
  /-- `AttributeError`, e.g. `.get`/`.update` on a decoded non-dict. -/
  | attributeError
  /-- `lmdb.BadValsizeError`: LMDB rejects the empty key (the 511-byte
  upper key size limit is not modelled). -/
  | badValsize
deriving DecidableEq, Repr

/-- Normalize one Python slice bound for a list of length `n`: negative
bounds count from the end and clamp at 0, positive bounds clamp at `n`. -/
def pyIndex (n : Nat) (i : Int) : Nat :=
  if i < 0 then (n + i).toNat else min i.toNat n

/-- Python `xs[a : b]` (step 1) with full negative-index and clamping
semantics. -/
def pySlice {α : Type} (xs : List α) (a b : Int) : List α :=
  (xs.take (pyIndex xs.length b)).drop (pyIndex xs.length a)

/-- Result of `search`: the page of matches and the optional next page. -/
structure SearchResult where
  results : List (String × Json)
  next_page : Option Int

/-- The scan loop of `search`: decode every value in iteration order and
keep the entries whose `field` compares `==` to `value`.  A malformed value
raises `JSONDecodeError`; a decoded non-dict raises `AttributeError` at
`data.get`; either aborts the whole call. -/
def searchScan : Store → String → Json → Except PyError (List (String × Json))
  | [], _, _ => .ok []
  | (_, none) :: _, _, _ => .error .decodeError
  | (k, some d) :: rest, f, v =>
      match d with
      | .obj fs =>
          match searchScan rest f v with
          | .error e => .error e
          | .ok tail => .ok (if pyEq (jgetD fs f) v then (k, .obj fs) :: tail else tail)
      | _ => .error .attributeError

/-- `search(db_path, field, value, page)`: full scan then pagination with
`limit = 10`, `offset = (page - 1) * limit`,
`slice = matched[offset : offset + limit]` (Python slice semantics), and
`next_page = page + 1 if offset + limit < len(matched) else None`. -/
def search (st : Store) (f : String) (v : Json) (page : Int) :
    Except PyError SearchResult :=
  match searchScan st f v with
  | .error e => .error e
  | .ok matched =>
      let limit : Int := 10
      let offset : Int := (page - 1) * limit
      .ok ⟨pySlice matched offset (offset + limit),
           if offset + limit < (matched.length : Int) then some (page + 1) else none⟩

/-- `list_keys(db_path, page)`: all keys in iteration order, paginated with
`limit = 200` by the same formula as `search`. -/
def list_keys (st : Store) (page : Int) : List String × Option Int :=
  let keys := st.map Prod.fst
  let limit : Int := 200
  let offset : Int := (page - 1) * limit
  (pySlice keys offset (offset + limit),
   if offset + limit < (keys.length : Int) then some (page + 1) else none)

/-- `get_row(db_path, key)`: point lookup; `{key, value: None}` when absent;
decodes the stored bytes when present.  LMDB rejects the empty key. -/
def get_row (st : Store) (key : String) : Except PyError (String × Option Json) :=
  if key = "" then .error .badValsize
  else match lookupStore st key with
    | none => .ok (key, none)
    | some none => .error .decodeError
    | some (some d) => .ok (key, some d)

/-- `create_record(db_path, key, value)`: existence check, then
`json.dumps` (raising `TypeError` on a non-serializable value, before any
write) and `txn.put`.  Returns whether the record was created; an existing
key is a reported outcome, not an error. -/
def create_record (st : Store) (key : String) (d : Json) :
    Except PyError Bool × Store :=
  if key = "" then (.error .badValsize, st)
  else match lookupStore st key with
    | some _ => (.ok false, st)
    | none =>
        if serializable d then (.ok true, storePut st key (some d))
        else (.error .typeError, st)

/-- `set_value(db_path, key, column, value)`: point lookup (absent key is a
reported `updated: False`, not an error), decode, `data[column] = value`,
re-encode (`TypeError` aborts the transaction before the write commits),
store. -/
def set_value (st : Store) (key c : String) (v : Json) :
    Except PyError Bool × Store :=
  if key = "" then (.error .badValsize, st)
  else match lookupStore st key with
    | none => (.ok false, st)
    | some none => (.error .decodeError, st)
    | some (some d) =>
        match d with
        | .obj fs =>
            let fs2 := setField fs c v
            if serializable (.obj fs2) then (.ok true, storePut st key (some (.obj fs2)))
            else (.error .typeError, st)
        | _ => (.error .typeError, st)

/-- `set_columns(db_path, key, updates)`: like `set_value` but merging a
whole mapping via `data.update(updates)` before re-encoding. -/
def set_columns (st : Store) (key : String) (updates : List (String × Json)) :
    Except PyError Bool × Store :=
  if key = "" then (.error .badValsize, st)
  else match lookupStore st key with
    | none => (.ok false, st)
    | some none => (.error .decodeError, st)
    | some (some d) =>
        match d with
        | .obj fs =>
            let fs2 := updateFields fs updates
            if serializable (.obj fs2) then (.ok true, storePut st key (some (.obj fs2)))
            else (.error .typeError, st)
        | _ => (.error .attributeError, st)

/-- Result of `next_pending`: the found key and decoded document, or both
`None`. -/
structure NPResult where
  key : Option String
  value : Option Json

/-- `cursor.set_range(a)`: the suffix of the store from the first key
`>= a` in iteration order ([] when no such key exists and the cursor is
left unpositioned). -/
def posFrom : Store → String → Store
  | [], _ => []
  | (k, r) :: rest, a => if keyLt k a then posFrom rest a else (k, r) :: rest

/-- The cursor-positioning prologue of `next_pending`.  `if after_key:` is
Python truthiness, so an empty `after_key` behaves like `None`
(`cursor.first()`).  After a successful `set_range` landing exactly on
`after_key`, one `cursor.next()` skips the resume point; stepping or
positioning past the last key leaves the cursor unpositioned ([]). -/
def npStart (st : Store) (ak : Option String) : Store :=
  match ak with
  | none => st
  | some a =>
      if a = "" then st
      else match posFrom st a with
        | [] => []
        | (k, r) :: rest => if k = a then rest else (k, r) :: rest

/-- The scan loop of `next_pending`.  py-lmdb's `cursor.key()` returns the
empty bytestring — never `None` — when the cursor is unpositioned, so the
guard `while cursor.key() is not None` is always true: entering the loop
unpositioned runs `json.loads(cursor.value())` on the empty bytestring
`b""` and raises `JSONDecodeError`.  On a positioned cursor the loop
decodes the current value, returns `(key, document)` when
`document.get(column) == 1`, and otherwise advances, breaking out to the
not-found result when `cursor.next()` reports no more keys. -/
def npScan (c : String) : Store → Except PyError NPResult
  | [] => .error .decodeError
  | (k, raw) :: rest =>
      match raw with
      | none => .error .decodeError
      | some d =>
          match d with
          | .obj fs =>
              if pyEq (jgetD fs c) (.int 1) then .ok ⟨some k, some (.obj fs)⟩
              else match rest with
                | [] => .ok ⟨none, none⟩
                | _ :: _ => npScan c rest
          | _ => .error .attributeError

/-- `next_pending(db_path, column, after_key)`: position, then scan for the
first record whose `column` compares `==` to `1`. -/
def next_pending (st : Store) (c : String) (ak : Option String) :
    Except PyError NPResult :=
  npScan c (npStart st ak)

/-- Result of `increment_field`: the updated flag and the new value. -/
structure IncResult where
  updated : Bool
  value : Option Json

/-- Whether a decoded value is numeric for the purpose of incrementing. -/
def isNumeric : Json → Bool
  | .int _ => true
  | .float _ => true
  | _ => false

/-- Add an integer amount to a numeric JSON value. -/
def addAmount : Json → Int → Json
  | .int n, a => .int (n + a)
  | .float q, a => .float (q + (a : ℚ))
  | v, _ => v

/-- Modelled from the spec: `increment_field(key, column, amount)` is absent
from `src/` (only the tests call it); §4.3 of the spec describes it.  Point
lookup (absent key reports not-updated); an absent column is treated as `0`
before adding `amount`, so it is initialized to `amount` and the update
succeeds; an existing non-numeric column reports not-updated without
raising and without writing; on success the new numeric value is returned
and stored. -/
def increment_field (st : Store) (key c : String) (amount : Int) :
    Except PyError IncResult × Store :=
  if key = "" then (.error .badValsize, st)
  else match lookupStore st key with
    | none => (.ok ⟨false, none⟩, st)
    | some none => (.error .decodeError, st)
    | some (some d) =>
        match d with
        | .obj fs =>
            match findField fs c with
            | none =>
                (.ok ⟨true, some (.int amount)⟩,
                 storePut st key (some (.obj (setField fs c (.int amount)))))
            | some v =>
                if isNumeric v then
                  (.ok ⟨true, some (addAmount v amount)⟩,
                   storePut st key (some (.obj (setField fs c (addAmount v amount)))))
                else (.ok ⟨false, none⟩, st)
        | _ => (.error .attributeError, st)

/-- Whether a store entry decodes to a pending record of `column`
(document present, decodes to a dict, and `document.get(column) == 1`). -/
def entryPending (c : String) (e : String × Raw) : Bool :=
  match e.2 with
  | some (.obj fs) => pyEq (jgetD fs c) (.int 1)
  | _ => false

/-- Whether a store entry decodes to a JSON object. -/
def decodesObj (e : String × Raw) : Bool :=
  match e.2 with
  | some (.obj _) => true
  | _ => false

/-- Every stored value decodes to a JSON object (the spec's data model). -/
def allObj (st : Store) : Bool := st.all decodesObj

/-- A stored document that decodes to a dict lacking field `f`. -/
def lacksField (f : String) (e : String × Raw) : Bool :=
  match e.2 with
  | some (.obj fs) => (findField fs f).isNone
  | _ => false

/-- A stored value that either decodes to a dict or is malformed (the only
shapes the spec's data model allows for raw values). -/
def objOrBad (e : String × Raw) : Bool :=
  match e.2 with
  | none => true
  | some (.obj _) => true
  | _ => false

/-- Spine induction for dicts (the values are not recursed into). -/
def JsonFields.spineInduction {motive : JsonFields → Prop} (hnil : motive .nil)
    (hcons : ∀ k v fs, motive fs → motive (.cons k v fs)) : ∀ fs, motive fs
  | .nil => hnil
  | .cons k v fs => hcons k v fs (JsonFields.spineInduction hnil hcons fs)
termination_by structural fs => fs

def taskDoc (i s : Int) : Json := jObj [("id", .int i), ("status", .int s)]

def taskStore : Store :=
  [("task:1", some (taskDoc 1 1)), ("task:2", some (taskDoc 2 1)),
   ("task:3", some (taskDoc 3 0)), ("task:4", some (taskDoc 4 1)),
   ("task:5", some (taskDoc 5 2))]

def c1Doc : Json := jObj [("s", .int 1)]

def c1Store : Store :=
  [("k1", some c1Doc), ("k2", some c1Doc), ("k3", some c1Doc),
   ("k4", some c1Doc), ("k5", some c1Doc)]

def bigKeyStore : Store := List.replicate 205 ("x", (none : Raw))

theorem bytesLt_irrefl (a : List Nat) : bytesLt a a = false := by
  induction a with
  | nil => rfl
  | cons x xs ih => simp [bytesLt, ih]

theorem bytesLt_trans {a : List Nat} :
    ∀ {b c : List Nat}, bytesLt a b = true → bytesLt b c = true → bytesLt a c = true := by
  induction a with
  | nil =>
    intro b c hab hbc
    cases b with
    | nil => simp [bytesLt] at hab
    | cons y ys =>
      cases c with
      | nil => simp [bytesLt] at hbc
      | cons z zs => rfl
  | cons x xs ih =>
    intro b c hab hbc
    cases b with
    | nil => simp [bytesLt] at hab
    | cons y ys =>
      cases c with
      | nil => simp [bytesLt] at hbc
      | cons z zs =>
        simp only [bytesLt] at hab hbc ⊢
        by_cases hxy : x < y
        · by_cases hyz : y < z
          · simp [Nat.lt_trans hxy hyz]
          · by_cases hzy : z < y
            · simp [hyz, hzy] at hbc
            · have h : y = z := Nat.le_antisymm (Nat.not_lt.mp hzy) (Nat.not_lt.mp hyz)
              subst h
              simp [hxy]
        · by_cases hyx : y < x
          · simp [hxy, hyx] at hab
          · have h : x = y := Nat.le_antisymm (Nat.not_lt.mp hyx) (Nat.not_lt.mp hxy)
            subst h
            simp only [if_neg hxy, if_neg hyx] at hab
            by_cases hyz : x < z
            · simp [hyz]
            · by_cases hzy : z < x
              · simp [hyz, hzy] at hbc
              · have h : x = z := Nat.le_antisymm (Nat.not_lt.mp hzy) (Nat.not_lt.mp hyz)
                subst h
                simp only [if_neg hyz, if_neg hzy] at hbc ⊢
                exact ih hab hbc

theorem bytesLt_asymm {a : List Nat} :
    ∀ {b : List Nat}, bytesLt a b = true → bytesLt b a = false := by
  induction a with
  | nil =>
    intro b hab
    cases b with
    | nil => simp [bytesLt] at hab
    | cons y ys => rfl
  | cons x xs ih =>
    intro b hab
    cases b with
    | nil => simp [bytesLt] at hab
    | cons y ys =>
      simp only [bytesLt] at hab ⊢
      by_cases hxy : x < y
      · simp [Nat.lt_asymm hxy, hxy]
      · by_cases hyx : y < x
        · simp [hxy, hyx] at hab
        · have h : x = y := Nat.le_antisymm (Nat.not_lt.mp hyx) (Nat.not_lt.mp hxy)
          subst h
          simp only [if_neg hxy] at hab ⊢
          exact ih hab

theorem keyLt_irrefl (a : String) : keyLt a a = false := bytesLt_irrefl _

theorem keyLt_trans {a b c : String} :
    keyLt a b = true → keyLt b c = true → keyLt a c = true := bytesLt_trans

theorem keyLt_asymm {a b : String} : keyLt a b = true → keyLt b a = false := bytesLt_asymm

theorem lookupStore_storePut_self (st : Store) (key : String) (r : Raw) :
    lookupStore (storePut st key r) key = some r := by
  induction st with
  | nil => simp [storePut, lookupStore]
  | cons e rest ih =>
    obtain ⟨k0, r0⟩ := e
    by_cases h : k0 = key
    · simp [storePut, h, lookupStore]
    · by_cases h2 : keyLt key k0 = true
      · simp [storePut, h, h2, lookupStore]
      · simp [storePut, h, h2, lookupStore, ih]

theorem decodesObj_iff {e : String × Raw} (h : decodesObj e = true) :
    ∃ fs, e.2 = some (.obj fs) := by
  obtain ⟨k, r⟩ := e
  cases r with
  | none => simp [decodesObj] at h
  | some d =>
    cases d
    case obj fs => exact ⟨fs, rfl⟩
    all_goals simp [decodesObj] at h

theorem allObj_tail {e : String × Raw} {rest : Store} (h : allObj (e :: rest) = true) :
    allObj rest = true := by
  simp only [allObj, List.all_cons, Bool.and_eq_true] at h
  exact h.2

theorem allObj_head {e : String × Raw} {rest : Store} (h : allObj (e :: rest) = true) :
    decodesObj e = true := by
  simp only [allObj, List.all_cons, Bool.and_eq_true] at h
  exact h.1

theorem allObj_of_sublist {l1 l2 : Store} (h : l1.Sublist l2) (ha : allObj l2 = true) :
    allObj l1 = true := by
  simp only [allObj, List.all_eq_true] at *
  exact fun e he => ha e (h.subset he)

theorem sortedStore_filter {p : String × Raw → Bool} {st : Store} (hs : sortedStore st) :
    sortedStore (st.filter p) :=
  List.Pairwise.sublist (List.filter_sublist st) hs

theorem posFrom_eq_filter {st : Store} (a : String) (hs : sortedStore st) :
    posFrom st a = st.filter (fun e => !keyLt e.1 a) := by
  induction st with
  | nil => rfl
  | cons e rest ih =>
    obtain ⟨h1, h2⟩ := List.pairwise_cons.mp hs
    obtain ⟨k0, r0⟩ := e
    cases hk : keyLt k0 a with
    | true => simp [posFrom, hk, List.filter_cons, ih h2]
    | false =>
      have hall : ∀ e ∈ rest, (!keyLt e.1 a) = true := by
        intro e he
        cases hea : keyLt e.1 a with
        | false => rfl
        | true =>
          have := keyLt_trans (h1 e he) hea
          rw [this] at hk
          cases hk
      simp [posFrom, hk, List.filter_cons, List.filter_eq_self.mpr hall]

theorem posFrom_eq_of_mem {st : Store} {a : String} {r : Raw}
    (hs : sortedStore st) (hm : (a, r) ∈ st) :
    posFrom st a = (a, r) :: st.filter (fun e => keyLt a e.1) := by
  induction st with
  | nil => cases hm
  | cons e rest ih =>
    obtain ⟨h1, h2⟩ := List.pairwise_cons.mp hs
    obtain ⟨k0, r0⟩ := e
    rcases List.mem_cons.mp hm with heq | hmem
    · obtain ⟨rfl, rfl⟩ : a = k0 ∧ r = r0 := by
        simpa [Prod.mk.injEq] using heq
      have hall : ∀ e ∈ rest, keyLt a e.1 = true := fun e he => h1 e he
      simp [posFrom, keyLt_irrefl, List.filter_cons, List.filter_eq_self.mpr hall]
    · have hk : keyLt k0 a = true := h1 _ hmem
      have hk2 : keyLt a k0 = false := keyLt_asymm hk
      simp [posFrom, hk, List.filter_cons, hk2, ih h2 hmem]

theorem find_first_not_lt {p : String × Raw → Bool} {l : Store} {x : String × Raw}
    (hs : sortedStore l) (hf : l.find? p = some x) :
    ∀ e ∈ l, p e = true → keyLt e.1 x.1 = false := by
  induction l with
  | nil => cases hf
  | cons h0 rest ih =>
    obtain ⟨h1, h2⟩ := List.pairwise_cons.mp hs
    intro e he hp
    cases hph : p h0 with
    | true =>
      rw [List.find?_cons_of_pos _ hph] at hf
      obtain rfl : h0 = x := by injection hf
      rcases List.mem_cons.mp he with rfl | hmem
      · exact keyLt_irrefl _
      · exact keyLt_asymm (h1 e hmem)
    | false =>
      rw [List.find?_cons_of_neg _ (by simp [hph])] at hf
      rcases List.mem_cons.mp he with rfl | hmem
      · rw [hph] at hp
        cases hp
      · exact ih h2 hf e hmem hp

theorem npScan_found {c : String} :
    ∀ {st : Store} {k : String} {d : Json}, allObj st = true →
      st.find? (entryPending c) = some (k, some d) →
      npScan c st = .ok ⟨some k, some d⟩ := by
  intro st
  induction st with
  | nil => intro k d _ hf; cases hf
  | cons e rest ih =>
    intro k d ha hf
    obtain ⟨k0, r0⟩ := e
    obtain ⟨fs, hr⟩ := decodesObj_iff (allObj_head ha)
    simp only at hr
    subst hr
    cases hp : entryPending c (k0, some (.obj fs)) with
    | true =>
      rw [List.find?_cons_of_pos _ hp] at hf
      have hf2 : k0 = k ∧ Json.obj fs = d := by
        simpa [Prod.mk.injEq] using hf
      obtain ⟨rfl, rfl⟩ := hf2
      have hpe : pyEq (jgetD fs c) (.int 1) = true := by
        simpa [entryPending] using hp
      simp [npScan, hpe]
    | false =>
      rw [List.find?_cons_of_neg _ (by simp [hp])] at hf
      have hpe : pyEq (jgetD fs c) (.int 1) = false := by
        simpa [entryPending] using hp
      have ha' := allObj_tail ha
      cases rest with
      | nil => cases hf
      | cons e2 rest2 =>
        have hstep : npScan c ((k0, some (Json.obj fs)) :: e2 :: rest2) = npScan c (e2 :: rest2) := by
          simp [npScan, hpe]
        rw [hstep]
        exact ih ha' hf

theorem pyEq_null_of_ne {v : Json} (h : v ≠ .null) : pyEq .null v = false := by
  cases v
  all_goals first | rfl | exact absurd rfl h

theorem searchScan_no_match {f : String} {v : Json} (hv : v ≠ .null) :
    ∀ {st : Store}, st.all (lacksField f) = true → searchScan st f v = .ok [] := by
  intro st
  induction st with
  | nil => intro _; rfl
  | cons e rest ih =>
    intro ha
    simp only [List.all_cons, Bool.and_eq_true] at ha
    obtain ⟨hh, ht⟩ := ha
    obtain ⟨k0, r0⟩ := e
    cases r0 with
    | none => simp [lacksField] at hh
    | some d =>
      cases d
      case obj fs =>
        have hff : findField fs f = none := by
          simpa [lacksField, Option.isNone_iff_eq_none] using hh
        have hnull : jgetD fs f = .null := by simp [jgetD, hff]
        simp [searchScan, ih ht, hnull, pyEq_null_of_ne hv]
      all_goals simp [lacksField] at hh

theorem pySlice_nil {α : Type} (a b : Int) : pySlice ([] : List α) a b = [] := by
  simp [pySlice]

theorem searchScan_decode_error {f : String} {v : Json} :
    ∀ {st : Store}, st.all objOrBad = true → st.any (fun e => e.2.isNone) = true →
      searchScan st f v = .error .decodeError := by
  intro st
  induction st with
  | nil => intro _ h; simp at h
  | cons e rest ih =>
    intro ha hb
    simp only [List.all_cons, Bool.and_eq_true] at ha
    obtain ⟨hh, ht⟩ := ha
    obtain ⟨k0, r0⟩ := e
    cases r0 with
    | none => rfl
    | some d =>
      have hb' : rest.any (fun e => e.2.isNone) = true := by simpa using hb
      cases d
      case obj fs => simp [searchScan, ih ht hb']
      all_goals simp [objOrBad] at hh

theorem search_eq_of_scan {st : Store} {f : String} {v : Json} {ms : List (String × Json)}
    (page : Int) (h : searchScan st f v = .ok ms) :
    search st f v page
      = .ok ⟨pySlice ms ((page - 1) * 10) ((page - 1) * 10 + 10),
             if (page - 1) * 10 + 10 < (ms.length : Int) then some (page + 1) else none⟩ := by
  simp [search, h]

theorem serializable_setField_false {v : Json} (hv : serializable v = false)
    (fs : JsonFields) (c : String) :
    serializableFields (setField fs c v) = false := by
  induction fs using JsonFields.spineInduction with
  | hnil => simp [setField, serializableFields, hv]
  | hcons k2 v2 fs' ih =>
    by_cases h : k2 = c
    · simp [setField, h, serializableFields, hv]
    · simp [setField, h, serializableFields, ih]

theorem findField_setField_self (fs : JsonFields) (c : String) (v : Json) :
    findField (setField fs c v) c = some v := by
  induction fs using JsonFields.spineInduction with
  | hnil => simp [setField, findField]
  | hcons k2 v2 fs' ih =>
    by_cases h : k2 = c
    · simp [setField, h, findField]
    · simp [setField, h, findField, ih]

theorem findField_setField_ne (fs : JsonFields) {k c : String} (v : Json) (h : k ≠ c) :
    findField (setField fs k v) c = findField fs c := by
  induction fs using JsonFields.spineInduction with
  | hnil => simp [setField, findField, h]
  | hcons k2 v2 fs' ih =>
    by_cases h2 : k2 = k
    · subst h2
      simp [setField, findField, h]
    · by_cases h3 : k2 = c
      · simp [setField, h2, findField, h3, Ne.symm h]
      · simp [setField, h2, findField, h3, ih]

theorem findField_updateFields_not_mem {c : String} :
    ∀ (rest : List (String × Json)) (fs : JsonFields), c ∉ rest.map Prod.fst →
      findField (updateFields fs rest) c = findField fs c := by
  intro rest
  induction rest with
  | nil => intro fs _; rfl
  | cons p rest' ih =>
    intro fs hc
    obtain ⟨k, v⟩ := p
    simp only [List.map_cons, List.mem_cons] at hc
    push_neg at hc
    obtain ⟨hck, hcr⟩ := hc
    simp only [updateFields]
    rw [ih _ hcr, findField_setField_ne _ v (Ne.symm hck)]

theorem serializableFields_false_of_find {fs : JsonFields} {c : String} {v : Json}
    (hf : findField fs c = some v) (hv : serializable v = false) :
    serializableFields fs = false := by
  induction fs using JsonFields.spineInduction with
  | hnil => cases hf
  | hcons k2 v2 fs' ih =>
    by_cases h : k2 = c
    · simp only [findField, if_pos h] at hf
      injection hf with hf
      subst hf
      simp [serializableFields, hv]
    · simp only [findField, if_neg h] at hf
      simp [serializableFields, ih hf]

theorem serializableFields_updateFields_false :
    ∀ (updates : List (String × Json)) (fs : JsonFields) (c : String) (v : Json),
      (c, v) ∈ updates → (updates.map Prod.fst).Nodup → serializable v = false →
      serializableFields (updateFields fs updates) = false := by
  intro updates
  induction updates with
  | nil => intro fs c v h _ _; cases h
  | cons p rest ih =>
    intro fs c v hm hnd hv
    obtain ⟨k0, v0⟩ := p
    simp only [List.map_cons, List.nodup_cons] at hnd
    obtain ⟨hk0, hndr⟩ := hnd
    rcases List.mem_cons.mp hm with heq | hmem
    · obtain ⟨rfl, rfl⟩ : c = k0 ∧ v = v0 := by simpa [Prod.mk.injEq] using heq
      simp only [updateFields]
      have hff : findField (updateFields (setField fs c v) rest) c = some v := by
        rw [findField_updateFields_not_mem rest _ hk0, findField_setField_self]
      exact serializableFields_false_of_find hff hv
    · simp only [updateFields]
      exact ih _ c v hmem hndr hv

/-- C1 counterexample: on a store with exactly 5 matching entries, `search`
with `page = -1` (limit 10) returns the empty slice — not the first 5
matches — together with `next_page = 0`: Python normalizes the slice
`matched[-20:-10]` of a 5-element list to the empty range. -/
theorem search_page_neg_one_five_matches_cex :
    searchScan c1Store "s" (.int 1)
      = .ok [("k1", c1Doc), ("k2", c1Doc), ("k3", c1Doc), ("k4", c1Doc), ("k5", c1Doc)] ∧
    search c1Store "s" (.int 1) (-1) = .ok ⟨[], some 0⟩ :=
  ⟨rfl, rfl⟩

/-- C1 (amended): with limit 10 and exactly 5 matches, every page `<= 0`
yields the empty slice and `next_page = page + 1` (so `0` at `page = -1`);
the "first 5 entries" outcome belongs to `list_keys` with its limit of 200
over 205 keys at `page = -1`, where the formula's Python-slice evaluation
gives `keys[-400:-200]`, i.e. the first 5 keys, and `next_page = 0`. -/
theorem pagination_nonpositive_page_amended :
    (∀ (st : Store) (f : String) (v : Json) (page : Int) (ms : List (String × Json)),
      page ≤ 0 → searchScan st f v = .ok ms → ms.length = 5 →
      search st f v page = .ok ⟨[], some (page + 1)⟩) ∧
    (∀ st : Store, st.length = 205 →
      list_keys st (-1) = ((st.map Prod.fst).take 5, some 0)) := by
  constructor
  · intro st f v page ms hp hscan hlen
    rw [search_eq_of_scan page hscan]
    have hb : pyIndex ms.length ((page - 1) * 10 + 10) = 0 := by
      rw [hlen]
      unfold pyIndex
      split_ifs <;> omega
    have hslice : pySlice ms ((page - 1) * 10) ((page - 1) * 10 + 10) = [] := by
      unfold pySlice
      rw [hb]
      simp
    have hcond : ((page - 1) * 10 + 10 : Int) < (ms.length : Int) := by
      rw [hlen]
      omega
    rw [hslice, if_pos hcond]
  · intro st hlen
    have hkl : (st.map Prod.fst).length = 205 := by rw [List.length_map, hlen]
    have h1 : pyIndex (st.map Prod.fst).length ((-1 - 1) * 200) = 0 := by
      rw [hkl]
      unfold pyIndex
      split_ifs <;> omega
    have h2 : pyIndex (st.map Prod.fst).length ((-1 - 1) * 200 + 200) = 5 := by
      rw [hkl]
      unfold pyIndex
      split_ifs <;> omega
    have hcond : ((-1 - 1) * 200 + 200 : Int) < ((st.map Prod.fst).length : Int) := by
      rw [hkl]
      omega
    simp only [list_keys, pySlice, h1, h2, if_pos hcond]
    simp

theorem pagination_nonpositive_page_amended_witness :
    search c1Store "s" (.int 1) (-1) = .ok ⟨[], some 0⟩ ∧
    list_keys bigKeyStore (-1) = ((bigKeyStore.map Prod.fst).take 5, some 0) :=
  ⟨pagination_nonpositive_page_amended.1 c1Store "s" (.int 1) (-1)
      [("k1", c1Doc), ("k2", c1Doc), ("k3", c1Doc), ("k4", c1Doc), ("k5", c1Doc)]
      (by decide) rfl rfl,
   pagination_nonpositive_page_amended.2 bigKeyStore rfl⟩

/-- C2 (code_bug evaluation): whenever the scan loop of `next_pending` is
entered with an unpositioned cursor — empty store, `after_key` greater
than every key, or `after_key` equal to the last key — the call raises
`JSONDecodeError` (py-lmdb's `cursor.key()` yields `b""`, never `None`, so
the loop guard never stops it and `json.loads(b"")` fails) instead of
returning the not-found result the spec describes. -/
theorem next_pending_unpositioned_cursor_raises :
    next_pending ([] : Store) "status" none = .error .decodeError ∧
    next_pending taskStore "status" (some "z") = .error .decodeError ∧
    next_pending taskStore "status" (some "task:5") = .error .decodeError :=
  ⟨rfl, rfl, rfl⟩

/-- C3 counterexample: a column holding the boolean `true` IS matched by
the pending sentinel `1` (Python `True == 1`), and a field holding the
number `1` IS matched by the search value `true` — contradicting the
claim that values of a different type never match. -/
theorem pending_sentinel_bool_true_cex :
    next_pending [("k", some (jObj [("c", .bool true)]))] "c" none
      = .ok ⟨some "k", some (jObj [("c", .bool true)])⟩ ∧
    search [("k", some (jObj [("f", .int 1)]))] "f" (.bool true) 1
      = .ok ⟨[("k", jObj [("f", .int 1)])], none⟩ :=
  ⟨rfl, rfl⟩

/-- C3 (amended): value matching distinguishes numbers from strings — the
number `1` never matches the string `"1"` in either direction, and `null`
never matches a number — but it follows Python numeric equality, under
which booleans are numbers: `true == 1`, so a field holding `1` is matched
by the value `true` and a column holding `true` matches the pending
sentinel `1`, while a column holding the string `"1"` does not. -/
theorem value_matching_type_sensitivity_amended :
    (∀ (n : Int) (s : String), pyEq (.int n) (.str s) = false) ∧
    (∀ (n : Int) (s : String), pyEq (.str s) (.int n) = false) ∧
    (∀ n : Int, pyEq .null (.int n) = false ∧ pyEq (.int n) .null = false) ∧
    pyEq (.bool true) (.int 1) = true ∧ pyEq (.int 1) (.bool true) = true ∧
    search [("k", some (jObj [("f", .int 1)]))] "f" (.str "1") 1 = .ok ⟨[], none⟩ ∧
    next_pending [("k", some (jObj [("c", .str "1")]))] "c" none = .ok ⟨none, none⟩ ∧
    next_pending [("k", some (jObj [("c", .bool true)]))] "c" none
      = .ok ⟨some "k", some (jObj [("c", .bool true)])⟩ :=
  ⟨fun _ _ => rfl, fun _ _ => rfl, fun _ => ⟨rfl, rfl⟩, rfl, rfl, rfl, rfl, rfl⟩

/-- C4 counterexample: with value `null`, `search` matches a document that
lacks the field (Python `dict.get` returns `None` for an absent field and
`None == None`), so the result set is not empty even though the field is
absent from every stored document. -/
theorem search_null_value_matches_absent_field_cex :
    lacksField "b" ("k", some (jObj [("a", .int 1)])) = true ∧
    search [("k", some (jObj [("a", .int 1)]))] "b" .null 1
      = .ok ⟨[("k", jObj [("a", .int 1)])], none⟩ :=
  ⟨rfl, rfl⟩

/-- C4 (amended): for every value argument other than `null`, if the
queried field is absent from every stored document (all of which decode to
JSON objects) then `search` returns an empty result set without error; the
value `null` is the exception, because `dict.get` collapses a missing
field to `None`, so `search` does not distinguish field-absent from
field-present-with-null. -/
theorem search_absent_field_amended :
    ∀ (st : Store) (f : String) (v : Json) (page : Int),
      v ≠ .null → st.all (lacksField f) = true →
      ∃ np, search st f v page = .ok ⟨[], np⟩ := by
  intro st f v page hv ha
  refine ⟨if (page - 1) * 10 + 10 < ((0 : Nat) : Int) then some (page + 1) else none, ?_⟩
  rw [search_eq_of_scan page (searchScan_no_match hv ha), pySlice_nil]
  simp

theorem search_absent_field_amended_witness :
    ∃ np, search [("k", some (jObj [("a", .int 1)]))] "b" (.int 9) 1 = .ok ⟨[], np⟩ :=
  search_absent_field_amended _ "b" (.int 9) 1 (fun h => Json.noConfusion h) rfl

/-- C5 (confirmed): `next_pending` is resumable.  With `after_key` unset it
returns the first pending entry in key order, and that key is
byte-order-least among pending keys; with `after_key = a` present in the
store it returns the least pending key strictly greater than `a` (the
exact resume point is skipped); with `a` absent it returns the least
pending key `>= a`; and on the 5-task store with pending suffixes
`{1, 2, 4}` the successive calls yield `task:1`, `task:2`, `task:4`, and
not-found. -/
theorem next_pending_resumable :
    (∀ (st : Store) (c k : String) (d : Json),
      sortedStore st → allObj st = true →
      st.find? (entryPending c) = some (k, some d) →
      next_pending st c none = .ok ⟨some k, some d⟩ ∧
        ∀ e ∈ st, entryPending c e = true → keyLt e.1 k = false) ∧
    (∀ (st : Store) (c a k : String) (d : Json),
      a ≠ "" → sortedStore st → allObj st = true → a ∈ st.map Prod.fst →
      (st.filter (fun e => keyLt a e.1)).find? (entryPending c) = some (k, some d) →
      next_pending st c (some a) = .ok ⟨some k, some d⟩ ∧
        ∀ e ∈ st, entryPending c e = true → keyLt a e.1 = true → keyLt e.1 k = false) ∧
    (∀ (st : Store) (c a k : String) (d : Json),
      a ≠ "" → sortedStore st → allObj st = true → a ∉ st.map Prod.fst →
      (st.filter (fun e => !keyLt e.1 a)).find? (entryPending c) = some (k, some d) →
      next_pending st c (some a) = .ok ⟨some k, some d⟩ ∧
        ∀ e ∈ st, entryPending c e = true → keyLt e.1 a = false → keyLt e.1 k = false) ∧
    (next_pending taskStore "status" none = .ok ⟨some "task:1", some (taskDoc 1 1)⟩ ∧
     next_pending taskStore "status" (some "task:1") = .ok ⟨some "task:2", some (taskDoc 2 1)⟩ ∧
     next_pending taskStore "status" (some "task:2") = .ok ⟨some "task:4", some (taskDoc 4 1)⟩ ∧
     next_pending taskStore "status" (some "task:4") = .ok ⟨none, none⟩) := by
  refine ⟨?_, ?_, ?_, rfl, rfl, rfl, rfl⟩
  · intro st c k d hs ha hf
    refine ⟨npScan_found ha hf, ?_⟩
    intro e he hp
    exact find_first_not_lt hs hf e he hp
  · intro st c a k d hne hs ha hmem hf
    obtain ⟨e0, he0, he0a⟩ := List.mem_map.mp hmem
    obtain ⟨a0, r0⟩ := e0
    simp only at he0a
    subst he0a
    have hpos := posFrom_eq_of_mem hs he0
    have hstart : npStart st (some a0) = st.filter (fun e => keyLt a0 e.1) := by
      simp [npStart, hne, hpos]
    constructor
    · show npScan c (npStart st (some a0)) = _
      rw [hstart]
      exact npScan_found (allObj_of_sublist (List.filter_sublist st) ha) hf
    · intro e he hp hgt
      have hef : e ∈ st.filter (fun e => keyLt a0 e.1) :=
        List.mem_filter.mpr ⟨he, hgt⟩
      exact find_first_not_lt (sortedStore_filter hs) hf e hef hp
  · intro st c a k d hne hs ha hnm hf
    have hpos := posFrom_eq_filter a hs
    cases hls : st.filter (fun e => !keyLt e.1 a) with
    | nil => rw [hls] at hf; cases hf
    | cons e0 rest0 =>
      have he0l : e0 ∈ st.filter (fun e => !keyLt e.1 a) := by
        rw [hls]; exact List.mem_cons_self _ _
      have he0st : e0 ∈ st := (List.mem_filter.mp he0l).1
      have hne0 : e0.1 ≠ a := by
        intro h
        exact hnm (h ▸ List.mem_map_of_mem Prod.fst he0st)
      obtain ⟨k0, r0⟩ := e0
      have hstart : npStart st (some a) = st.filter (fun e => !keyLt e.1 a) := by
        simp only at hne0
        simp [npStart, hne, hpos, hls, hne0]
      constructor
      · show npScan c (npStart st (some a)) = _
        rw [hstart]
        exact npScan_found (allObj_of_sublist (List.filter_sublist st) ha) hf
      · intro e he hp hge
        have hef : e ∈ st.filter (fun e => !keyLt e.1 a) :=
          List.mem_filter.mpr ⟨he, by simp [hge]⟩
        exact find_first_not_lt (sortedStore_filter hs) hf e hef hp

theorem next_pending_resumable_witness :
    next_pending taskStore "status" none = .ok ⟨some "task:1", some (taskDoc 1 1)⟩ ∧
    next_pending taskStore "status" (some "task:2") = .ok ⟨some "task:4", some (taskDoc 4 1)⟩ ∧
    next_pending taskStore "status" (some "task:0") = .ok ⟨some "task:1", some (taskDoc 1 1)⟩ :=
  ⟨(next_pending_resumable.1 taskStore "status" "task:1" (taskDoc 1 1)
      (by decide) rfl rfl).1,
   (next_pending_resumable.2.1 taskStore "status" "task:2" "task:4" (taskDoc 4 1)
      (by decide) (by decide) rfl (by decide) rfl).1,
   (next_pending_resumable.2.2.1 taskStore "status" "task:0" "task:1" (taskDoc 1 1)
      (by decide) (by decide) rfl (by decide) rfl).1⟩

/-- C6 (confirmed): if any stored value is not valid JSON (and every value
is a JSON object or malformed, as the data model requires), `search` fails
with a decode error for every field, value, and page — no partial result
and no silent skipping, since the scan precedes pagination and the first
bad record aborts the call. -/
theorem search_malformed_record_decode_error :
    ∀ (st : Store) (f : String) (v : Json) (page : Int),
      st.all objOrBad = true → st.any (fun e => e.2.isNone) = true →
      search st f v page = .error .decodeError := by
  intro st f v page ha hb
  simp [search, searchScan_decode_error ha hb]

theorem search_malformed_record_decode_error_witness :
    search [("good", some (jObj [])), ("bad", none)] "f" (.int 1) 1
      = .error .decodeError :=
  search_malformed_record_decode_error _ "f" (.int 1) 1 rfl rfl

/-- C7 counterexample: the empty key is absent from every store, yet
`set_value` and `set_columns` on it raise `lmdb.BadValsizeError` (the
engine rejects empty keys at `txn.get`) instead of returning
`updated: false`. -/
theorem set_value_empty_key_cex :
    lookupStore ([] : Store) "" = none ∧
    set_value [] "" "c" (.int 1) = (.error .badValsize, []) ∧
    set_columns [] "" [("c", .int 1)] = (.error .badValsize, []) :=
  ⟨rfl, rfl, rfl⟩

/-- C7 (amended): for every nonempty key absent from the store, `set_value`
and `set_columns` return `updated: false` without raising, never create
the key (the store is returned unchanged), and calling the same operation
again with identical arguments yields the same `updated: false` result. -/
theorem failed_update_missing_key_amended :
    ∀ (st : Store) (key c : String) (v : Json) (updates : List (String × Json)),
      key ≠ "" → lookupStore st key = none →
      set_value st key c v = (.ok false, st) ∧
      set_columns st key updates = (.ok false, st) ∧
      set_value (set_value st key c v).2 key c v = (.ok false, st) ∧
      set_columns (set_columns st key updates).2 key updates = (.ok false, st) := by
  intro st key c v updates hk hl
  have h1 : set_value st key c v = (.ok false, st) := by simp [set_value, hk, hl]
  have h2 : set_columns st key updates = (.ok false, st) := by simp [set_columns, hk, hl]
  refine ⟨h1, h2, ?_, ?_⟩
  · rw [h1]
    exact h1
  · rw [h2]
    exact h2

theorem failed_update_missing_key_amended_witness :
    set_value [("a", some (jObj []))] "missing" "s" (.int 1)
      = (.ok false, [("a", some (jObj []))]) ∧
    set_columns [("a", some (jObj []))] "missing" [("s", .int 1)]
      = (.ok false, [("a", some (jObj []))]) ∧
    set_value (set_value [("a", some (jObj []))] "missing" "s" (.int 1)).2 "missing" "s" (.int 1)
      = (.ok false, [("a", some (jObj []))]) ∧
    set_columns (set_columns [("a", some (jObj []))] "missing" [("s", .int 1)]).2 "missing"
        [("s", .int 1)]
      = (.ok false, [("a", some (jObj []))]) :=
  failed_update_missing_key_amended [("a", some (jObj []))] "missing" "s" (.int 1)
    [("s", .int 1)] (by decide) rfl

/-- C8 counterexample: the empty key is not present in the empty store and
the empty document is JSON-serializable, yet `create_record` raises
`lmdb.BadValsizeError` instead of returning `created: true`. -/
theorem create_record_empty_key_cex :
    lookupStore ([] : Store) "" = none ∧ serializable (jObj []) = true ∧
    create_record [] "" (jObj []) = (.error .badValsize, []) :=
  ⟨rfl, rfl, rfl⟩

/-- C8 (amended): for every nonempty key `k` not present in the store and
every JSON-serializable document `d`, `create_record k d` reports
`created: true` and stores `d`, and a subsequent `get_row k` on the
resulting store returns exactly `d` (hence a value-equal document; field
order is preserved by the store and irrelevant to equality). -/
theorem create_then_get_round_trip_amended :
    ∀ (st : Store) (k : String) (d : Json),
      k ≠ "" → lookupStore st k = none → serializable d = true →
      create_record st k d = (.ok true, storePut st k (some d)) ∧
      get_row (storePut st k (some d)) k = .ok (k, some d) := by
  intro st k d hk hl hs
  constructor
  · simp [create_record, hk, hl, hs]
  · simp [get_row, hk, lookupStore_storePut_self]

theorem create_then_get_round_trip_amended_witness :
    create_record [] "task:9" (jObj [("id", .int 9)])
      = (.ok true, storePut [] "task:9" (some (jObj [("id", .int 9)]))) ∧
    get_row (storePut [] "task:9" (some (jObj [("id", .int 9)]))) "task:9"
      = .ok ("task:9", some (jObj [("id", .int 9)])) :=
  create_then_get_round_trip_amended [] "task:9" (jObj [("id", .int 9)])
    (by decide) rfl rfl

/-- C9 (confirmed, spec-modelled): `increment_field` on an existing key
whose column is absent treats the column as 0, stores `amount`, and
reports `updated: true` with the new value; on an existing key whose
column holds a non-numeric value it reports `updated: false` without
raising and returns the store unchanged. -/
theorem increment_field_column_semantics :
    ∀ (st : Store) (key c : String) (amount : Int) (fs : JsonFields),
      key ≠ "" → lookupStore st key = some (some (.obj fs)) →
      (findField fs c = none →
        increment_field st key c amount
          = (.ok ⟨true, some (.int amount)⟩,
             storePut st key (some (.obj (setField fs c (.int amount)))))) ∧
      (∀ v, findField fs c = some v → isNumeric v = false →
        increment_field st key c amount = (.ok ⟨false, none⟩, st)) := by
  intro st key c amount fs hk hl
  constructor
  · intro hff
    simp [increment_field, hk, hl, hff]
  · intro v hff hnum
    simp [increment_field, hk, hl, hff, hnum]

theorem increment_field_column_semantics_witness :
    increment_field [("task:1", some (jObj [("id", .int 1)]))] "task:1" "counter" 3
      = (.ok ⟨true, some (.int 3)⟩,
         storePut [("task:1", some (jObj [("id", .int 1)]))] "task:1"
           (some (.obj (setField (JsonFields.ofList [("id", .int 1)]) "counter" (.int 3))))) ∧
    increment_field [("task:1", some (jObj [("status", .str "done")]))] "task:1" "status" 1
      = (.ok ⟨false, none⟩, [("task:1", some (jObj [("status", .str "done")]))]) :=
  ⟨(increment_field_column_semantics [("task:1", some (jObj [("id", .int 1)]))] "task:1"
      "counter" 3 (JsonFields.ofList [("id", .int 1)]) (by decide) rfl).1 rfl,
   (increment_field_column_semantics [("task:1", some (jObj [("status", .str "done")]))]
      "task:1" "status" 1 (JsonFields.ofList [("status", .str "done")])
      (by decide) rfl).2 (.str "done") rfl rfl⟩

/-- C10 counterexample: passing a non-serializable value to `set_value`
with a key that is absent from the store does NOT raise a serialization
error — the missing-key check returns `updated: false` before the encode
step is ever reached. -/
theorem set_value_nonserializable_missing_key_cex :
    serializable (.nonser 0) = false ∧
    set_value [] "k" "c" (.nonser 0) = (.ok false, []) :=
  ⟨rfl, rfl⟩

/-- C10 (amended): when the operation reaches the encode step — for
`set_value`/`set_columns` a nonempty key whose record decodes to a JSON
object, for `create_record` a nonempty absent key — a non-serializable
value makes the call raise `TypeError` from `json.dumps` inside the write
scope, the transaction aborts, and the store is left completely unchanged
(no write commits); on paths that return before encoding (e.g. a missing
key) no error is raised and the store is likewise unchanged. -/
theorem serialization_failure_aborts_amended :
    (∀ (st : Store) (key c : String) (v : Json) (fs : JsonFields),
      key ≠ "" → lookupStore st key = some (some (.obj fs)) → serializable v = false →
      set_value st key c v = (.error .typeError, st)) ∧
    (∀ (st : Store) (key : String) (updates : List (String × Json)) (fs : JsonFields)
        (c : String) (v : Json),
      key ≠ "" → lookupStore st key = some (some (.obj fs)) →
      (c, v) ∈ updates → (updates.map Prod.fst).Nodup → serializable v = false →
      set_columns st key updates = (.error .typeError, st)) ∧
    (∀ (st : Store) (key : String) (d : Json),
      key ≠ "" → lookupStore st key = none → serializable d = false →
      create_record st key d = (.error .typeError, st)) := by
  refine ⟨?_, ?_, ?_⟩
  · intro st key c v fs hk hl hv
    have hser : serializable (.obj (setField fs c v)) = false :=
      serializable_setField_false hv fs c
    simp [set_value, hk, hl, hser]
  · intro st key updates fs c v hk hl hm hnd hv
    have hser : serializable (.obj (updateFields fs updates)) = false :=
      serializableFields_updateFields_false updates fs c v hm hnd hv
    simp [set_columns, hk, hl, hser]
  · intro st key d hk hl hv
    simp [create_record, hk, hl, hv]

theorem serialization_failure_aborts_amended_witness :
    set_value [("k", some (jObj []))] "k" "c" (.nonser 0)
      = (.error .typeError, [("k", some (jObj []))]) ∧
    set_columns [("k", some (jObj []))] "k" [("c", .nonser 0)]
      = (.error .typeError, [("k", some (jObj []))]) ∧
    create_record [] "k2" (.nonser 1) = (.error .typeError, []) :=
  ⟨serialization_failure_aborts_amended.1 [("k", some (jObj []))] "k" "c" (.nonser 0) .nil
      (by decide) rfl rfl,
   serialization_failure_aborts_amended.2.1 [("k", some (jObj []))] "k" [("c", .nonser 0)] .nil
      "c" (.nonser 0) (by decide) rfl (List.mem_cons_self _ _) (by simp) rfl,
   serialization_failure_aborts_amended.2.2 [] "k2" (.nonser 1) (by decide) rfl rfl⟩
